import Mathlib

/-!
Verification of the bulk-email batch-dispatch service
(Express route `POST /api/send-emails` in `src/server/routes.ts`,
zod schemas in `src/shared/schema.ts`, client helpers in the React page).

The development shallowly embeds the pieces of the program the
specification talks about:

* `parseEmails` — the client-side recipient normalizer
  (`text.match(/[a-zA-Z0-9._%+-]+@[a-zA-Z0-9.-]+\.[a-zA-Z]{2,}/g)` followed
  by `Array.from(new Set(...))`), embedded as an explicit scanner with the
  JavaScript leftmost/greedy/backtracking semantics of that regex;
* `stripHtmlTags` — `htmlBody.replace(/<[^>]*>/g, "")`;
* `validateEmailRequest` — `sendEmailRequestSchema.safeParse`, embedded as an
  issue-collecting traversal of the schema (zod collects one issue per
  violated field constraint rather than stopping at the first);
* `handler` — the route body itself: multer limits, JSON parsing, schema
  validation, the attachment content-type allow-list, `createTransport`,
  `verify`, and the per-recipient dispatch loop that writes SSE units.

Effects are made explicit: the stream of SSE units written with `res.write`,
the synchronous JSON responses, and a trace of transport operations
(create / verify / sendMail / close).  The environment (`Env`) supplies the
outcomes of the two network calls (`transporter.verify`, `transporter.sendMail`),
which the spec treats as a black box.
-/

/-! ### Character classes of the two regexes -/

/-- Characters matched by `[a-zA-Z0-9._%+-]` (local part of the email regex). -/
def isLocalChar (c : Char) : Bool :=
  c.isAlpha || c.isDigit || c = '.' || c = '_' || c = '%' || c = '+' || c = '-'

/-- Characters matched by `[a-zA-Z0-9.-]` (domain part of the email regex). -/
def isDomainChar (c : Char) : Bool :=
  c.isAlpha || c.isDigit || c = '.' || c = '-'

/-- Length of the maximal run of ASCII letters at the front, i.e. what the
greedy `[a-zA-Z]{2,}` tail of the email regex consumes. -/
def lettersLen (cs : List Char) : Nat := (cs.takeWhile Char.isAlpha).length

/-- Backtracking search for the split used by `[a-zA-Z0-9.-]+\.[a-zA-Z]{2,}`:
starting from the greedy candidate and going down, find the largest `d1` such
that `rest[d1] = '.'` and at least two letters follow.  Returns the length `d1`
consumed by `[a-zA-Z0-9.-]+` together with the number `m` of letters consumed
by the greedy `[a-zA-Z]{2,}`. -/
def findSplit (rest : List Char) : Nat → Option (Nat × Nat)
  | 0 => none
  | d + 1 =>
    let m := lettersLen (rest.drop (d + 2))
    if rest.get? (d + 1) = some '.' ∧ 2 ≤ m then some (d + 1, m)
    else findSplit rest d

/-- Length of the match of `[a-zA-Z0-9._%+-]+@[a-zA-Z0-9.-]+\.[a-zA-Z]{2,}`
starting exactly at the head of `cs`, under JavaScript (greedy, backtracking)
semantics; `none` when no match starts here.  The greedy local part must end
at the `@` (no shorter prefix can, since `@` is not a local character). -/
def matchLenAt (cs : List Char) : Option Nat :=
  let l := (cs.takeWhile isLocalChar).length
  if l = 0 then none
  else
    match cs.get? l with
    | some c =>
      if c = '@' then
        let rest := cs.drop (l + 1)
        match findSplit rest ((rest.takeWhile isDomainChar).length) with
        | some (d1, m) => some (l + 1 + d1 + 1 + m)
        | none => none
      else none
    | none => none

/-- One step of the global (`/g`) scan: try each start position left to right;
on a match, record it and resume right after it.  Fueled by the length of the
input so that it is structurally recursive (each step consumes at least one
character). -/
def scanAuxF : Nat → List Char → List (List Char)
  | 0, _ => []
  | _, [] => []
  | fuel + 1, c :: cs =>
    match matchLenAt (c :: cs) with
    | some n => (c :: cs).take n :: scanAuxF fuel ((c :: cs).drop n)
    | none => scanAuxF fuel cs

/-- All matches of the email regex in `s`, in order of occurrence:
`s.match(/[a-zA-Z0-9._%+-]+@[a-zA-Z0-9.-]+\.[a-zA-Z]{2,}/g)` (with `null`
rendered as the empty list, as the source does). -/
def emailMatches (s : String) : List String :=
  (scanAuxF s.data.length s.data).map List.asString

/-- First-occurrence deduplication with an accumulator of already-seen values:
this is exactly the iteration order of `Array.from(new Set(ms))` (a JavaScript
`Set` keeps insertion order and ignores re-insertions). -/
def dedupFirstAux (seen : List String) : List String → List String
  | [] => []
  | x :: xs =>
    if x ∈ seen then dedupFirstAux seen xs
    else x :: dedupFirstAux (x :: seen) xs

/-- Embeds `parseEmails` from the client page: regex-match all email-shaped
substrings, then deduplicate keeping first occurrences. -/
def parseEmails (s : String) : List String :=
  dedupFirstAux [] (emailMatches s)

/-! ### `htmlBody.replace(/<[^>]*>/g, "")` -/

/-- Searches for the first `'>'`; on success returns the suffix after it
(the continuation of the scan after a `<[^>]*>` match). -/
def findTagEnd : List Char → Option (List Char)
  | [] => none
  | c :: cs => if c = '>' then some cs else findTagEnd cs

/-- Fueled scanner for `replace(/<[^>]*>/g, "")`: a match starts only at `'<'`
and extends (greedily, through characters other than `'>'`) to the first
`'>'`; if no `'>'` follows, the `'<'` is not part of any match and is kept. -/
def stripTagsF : Nat → List Char → List Char
  | 0, _ => []
  | _, [] => []
  | fuel + 1, c :: cs =>
    if c = '<' then
      match findTagEnd cs with
      | some after => stripTagsF fuel after
      | none => c :: stripTagsF fuel cs
    else c :: stripTagsF fuel cs

/-- Embeds `htmlBody.replace(/<[^>]*>/g, "")` (routes.ts line 128). -/
def stripHtmlTags (s : String) : String :=
  (stripTagsF s.data.length s.data).asString

/-! ### Data model (`src/shared/schema.ts`) -/

/-- The parsed `smtpConfig` object of the inbound payload, before schema
validation: each field is `none` when absent from the JSON. -/
structure SmtpRaw where
  username : Option String
  password : Option String
  host : Option String
  port : Option Int
  fromEmail : Option String
deriving DecidableEq

/-- The raw request body after the `JSON.parse` stage (routes.ts lines 20-49),
before `sendEmailRequestSchema.safeParse`: fields are `none` when absent. -/
structure RawPayload where
  smtpConfig : Option SmtpRaw
  recipients : Option (List String)
  subject : Option String
  htmlBody : Option String
  textBody : Option String
  cc : Option (List String)
  bcc : Option (List String)
deriving DecidableEq

/-- `SMTPConfig` after validation (defaults applied by the zod schema). -/
structure SMTPConfig where
  username : String
  password : String
  host : String
  port : Int
  fromEmail : String
deriving DecidableEq

/-- `SendEmailRequest`: the validated request (`sendEmailRequestSchema`). -/
structure SendEmailRequest where
  smtpConfig : SMTPConfig
  recipients : List String
  subject : String
  htmlBody : String
  textBody : Option String
  cc : Option (List String)
  bcc : Option (List String)
deriving DecidableEq

/-- The `status` field of an `EmailStatus` (`emailStatusSchema`). -/
inductive EmailState where
  | pending
  | sending
  | sent
  | failed
deriving DecidableEq

/-- `EmailStatus`: one per-recipient status record; `error` is present exactly
on the `failed` records the route produces. -/
structure EmailStatus where
  email : String
  status : EmailState
  error : Option String
deriving DecidableEq

/-- `SendEmailResponse`: the final batch summary sent in the `complete` unit. -/
structure SendEmailResponse where
  results : List EmailStatus
  totalSent : Nat
  totalFailed : Nat
deriving DecidableEq

/-! ### The request validator (`sendEmailRequestSchema.safeParse`)

zod's `safeParse` runs every field of the object schema and aggregates one
issue per violated constraint instead of stopping at the first failure.  The
embedding keeps that structure: `issuesOf` traverses the schema in field
order and collects the issues; validation succeeds exactly when the list is
empty.  The element-level email test (`z.string().email()`) is kept abstract
as a parameter `emailOk`, since its exact regular expression belongs to the
zod library, not to this repository. -/

/-- Labels for the constraints of `sendEmailRequestSchema`, one per issue the
schema can report. -/
inductive VIssue where
  | smtpConfigRequired
  | usernameRequired
  | passwordRequired
  | fromEmailInvalid
  | recipientsRequired
  | recipientInvalid (i : Nat)
  | recipientsTooFew
  | subjectRequired
  | htmlBodyRequired
  | ccInvalid (i : Nat)
  | bccInvalid (i : Nat)
deriving DecidableEq

/-- Issues of an element-wise `z.array(z.string().email())` check: one issue,
tagged with its index, per element rejected by `emailOk`. -/
def idxFailures (emailOk : String → Bool) (tag : Nat → VIssue) :
    Nat → List String → List VIssue
  | _, [] => []
  | i, r :: rs =>
    (if emailOk r then [] else [tag i]) ++ idxFailures emailOk tag (i + 1) rs

/-- Issue of a `z.string().min(1, ...)` field: one issue when the field is
absent (zod `invalid_type`) or empty (zod `too_small`). -/
def reqIssue (v : VIssue) (x : Option String) : List VIssue :=
  match x with
  | none => [v]
  | some s => if s = "" then [v] else []

/-- Issue of an optional `z.string().email()` field with a default: no issue
when absent; one issue when present and rejected by the email check. -/
def emailFieldIssue (v : VIssue) (emailOk : String → Bool)
    (x : Option String) : List VIssue :=
  match x with
  | none => []
  | some s => if emailOk s then [] else [v]

/-- Issues of the nested `smtpConfigSchema`: `username` and `password` must be
present and non-empty; `host`, `port`, `fromEmail` have defaults, but a
`fromEmail` that is present must pass the email check. -/
def smtpIssues (emailOk : String → Bool) (c : SmtpRaw) : List VIssue :=
  reqIssue VIssue.usernameRequired c.username ++
  reqIssue VIssue.passwordRequired c.password ++
  emailFieldIssue VIssue.fromEmailInvalid emailOk c.fromEmail

/-- All issues of `sendEmailRequestSchema` on a raw payload, in schema field
order (`smtpConfig`, `recipients`, `subject`, `htmlBody`, `textBody`, `cc`,
`bcc`). -/
def issuesOf (emailOk : String → Bool) (p : RawPayload) : List VIssue :=
  (match p.smtpConfig with
   | none => [VIssue.smtpConfigRequired]
   | some c => smtpIssues emailOk c) ++
  (match p.recipients with
   | none => [VIssue.recipientsRequired]
   | some rs =>
     idxFailures emailOk VIssue.recipientInvalid 0 rs ++
     (if rs.length < 1 then [VIssue.recipientsTooFew] else [])) ++
  reqIssue VIssue.subjectRequired p.subject ++
  reqIssue VIssue.htmlBodyRequired p.htmlBody ++
  (match p.cc with
   | none => []
   | some cs => idxFailures emailOk VIssue.ccInvalid 0 cs) ++
  (match p.bcc with
   | none => []
   | some bs => idxFailures emailOk VIssue.bccInvalid 0 bs)

/-- The value `safeParse` returns on success: the parsed fields with the
schema defaults filled in.  (Only reached when `issuesOf` is empty, so the
`getD ""` fallbacks for required fields never fire.) -/
def buildRequest (p : RawPayload) : SendEmailRequest :=
  let c := p.smtpConfig.getD ⟨none, none, none, none, none⟩
  { smtpConfig :=
      { username := c.username.getD ""
        password := c.password.getD ""
        host := c.host.getD "smtp.zeptomail.in"
        port := c.port.getD 587
        fromEmail := c.fromEmail.getD "crmsupport@legacylifespaces.com" }
    recipients := p.recipients.getD []
    subject := p.subject.getD ""
    htmlBody := p.htmlBody.getD ""
    textBody := p.textBody
    cc := p.cc
    bcc := p.bcc }

/-- Embeds `sendEmailRequestSchema.safeParse` (routes.ts line 51). -/
def validateEmailRequest (emailOk : String → Bool) (p : RawPayload) :
    Except (List VIssue) SendEmailRequest :=
  match issuesOf emailOk p with
  | [] => Except.ok (buildRequest p)
  | es => Except.error es

/-! ### The route handler (`registerRoutes`, routes.ts lines 16-188) -/

/-- One uploaded multipart file as multer presents it (`Express.Multer.File`):
name, declared content type, byte size, and an abstract handle for the
buffered content. -/
structure FilePart where
  originalname : String
  mimetype : String
  size : Nat
  buffer : Nat
deriving DecidableEq

/-- An attachment passed to `sendMail` (routes.ts lines 84-87). -/
structure MailAttachment where
  filename : String
  content : Nat
deriving DecidableEq

/-- The `mailOptions` object handed to `transporter.sendMail` (routes.ts
lines 123-132).  The JavaScript keys `from` and `to` are spelled `fromAddr`
and `toAddr` because both are Lean keywords. -/
structure MailMessage where
  fromAddr : String
  toAddr : String
  subject : String
  html : String
  text : String
  cc : Option (List String)
  bcc : Option (List String)
  attachments : List MailAttachment
deriving DecidableEq

/-- The `text` field of `mailOptions`:
`validatedData.textBody || validatedData.htmlBody.replace(/<[^>]*>/g, "")`
(line 128; `||` falls through on `undefined` and on the empty string). -/
def textOf (req : SendEmailRequest) : String :=
  match req.textBody with
  | some t => if t = "" then stripHtmlTags req.htmlBody else t
  | none => stripHtmlTags req.htmlBody

/-- Builds the `mailOptions` for one recipient (lines 123-132): the recipient
is the sole `to`; body, cc, bcc and attachments are shared across the batch;
`from` is `validatedData.smtpConfig.fromEmail`. -/
def mkMessage (req : SendEmailRequest) (atts : List MailAttachment)
    (r : String) : MailMessage :=
  { fromAddr := req.smtpConfig.fromEmail
    toAddr := r
    subject := req.subject
    html := req.htmlBody
    text := textOf req
    cc := req.cc
    bcc := req.bcc
    attachments := atts }

/-- Outcome of one `transporter.sendMail` call, chosen by the environment:
fulfilled, rejected with an `Error` carrying a message, or rejected with a
non-`Error` value (in which case the route records "Unknown error"). -/
inductive SendOutcome where
  | ok
  | errMsg (m : String)
  | errNonError
deriving DecidableEq

/-- The black-box network environment of one request: whether
`transporter.verify()` succeeds, and the outcome of the k-th
`transporter.sendMail` call. -/
structure Env where
  verifyOk : Bool
  send : Nat → SendOutcome

/-- Observable operations against the nodemailer transport, in order:
`createTransport`, `verify`, each `sendMail`, and (never issued by this
route) closing the transport. -/
inductive TransportOp where
  | create
  | verify
  | sendMail (k : Nat) (recipient : String) (msg : MailMessage)
  | close
deriving DecidableEq

/-- One unit written on the SSE stream: a per-recipient status object, the
final `complete` unit carrying the `SendEmailResponse`, or the fatal `error`
unit of the outer catch. -/
inductive StreamUnit where
  | status (st : EmailStatus)
  | complete (resp : SendEmailResponse)
  | fatalError (message : String)
deriving DecidableEq

/-- The terminal status record the loop body produces for recipient `r` from
the outcome of its `sendMail` call (lines 136-150). -/
def statusFor (r : String) (o : SendOutcome) : EmailStatus :=
  match o with
  | SendOutcome.ok => ⟨r, EmailState.sent, none⟩
  | SendOutcome.errMsg m => ⟨r, EmailState.failed, some m⟩
  | SendOutcome.errNonError => ⟨r, EmailState.failed, some "Unknown error"⟩

/-- Everything the `for` loop over recipients (lines 119-156) produces:
the SSE units written, the transport operations issued, and the
`results` / `totalSent` / `totalFailed` accumulators. -/
structure LoopOut where
  units : List StreamUnit
  ops : List TransportOp
  results : List EmailStatus
  totalSent : Nat
  totalFailed : Nat
deriving DecidableEq

/-- The dispatch loop (lines 119-156), with `k` the index of the next
`sendMail` call: write the `sending` unit, call `sendMail`, then record and
write the terminal status; a rejection is caught locally and counted as
`failed`. -/
def dispatchLoop (env : Env) (req : SendEmailRequest)
    (atts : List MailAttachment) : Nat → List String → LoopOut
  | _, [] => ⟨[], [], [], 0, 0⟩
  | k, r :: rs =>
    let rest := dispatchLoop env req atts (k + 1) rs
    let st := statusFor r (env.send k)
    { units := StreamUnit.status ⟨r, EmailState.sending, none⟩ ::
        StreamUnit.status st :: rest.units
      ops := TransportOp.sendMail k r (mkMessage req atts r) :: rest.ops
      results := st :: rest.results
      totalSent := (if st.status = EmailState.sent then 1 else 0) + rest.totalSent
      totalFailed := (if st.status = EmailState.failed then 1 else 0) + rest.totalFailed }

/-- The whole loop for a validated request, starting at call index 0. -/
def runDispatch (env : Env) (req : SendEmailRequest)
    (atts : List MailAttachment) : LoopOut :=
  dispatchLoop env req atts 0 req.recipients

/-- The final summary (lines 158-162). -/
def mkResponse (out : LoopOut) : SendEmailResponse :=
  ⟨out.results, out.totalSent, out.totalFailed⟩

/-- What the route hands back: a synchronous JSON response
(`res.status(code).json(...)`, with the zod issues when present), or the SSE
stream with its units and whether the producer called `res.end()`. -/
inductive HandlerResult where
  | syncJson (code : Nat) (message : String) (errs : List VIssue)
  | stream (units : List StreamUnit) (ended : Bool)
deriving DecidableEq

/-- The allow-list of attachment content types (routes.ts lines 62-73). -/
def allowedFileTypes : List String :=
  ["application/pdf", "image/jpeg", "image/png", "image/gif",
   "application/msword",
   "application/vnd.openxmlformats-officedocument.wordprocessingml.document",
   "application/vnd.ms-excel",
   "application/vnd.openxmlformats-officedocument.spreadsheetml.sheet",
   "text/plain", "text/csv"]

/-- The attachment check-and-collect loop (lines 75-89): the first file whose
declared type is outside the allow-list aborts the request with the 400
message; otherwise the files become the shared attachment list. -/
def checkAttachments : List FilePart → Sum String (List MailAttachment)
  | [] => Sum.inr []
  | f :: fs =>
    if f.mimetype ∈ allowedFileTypes then
      match checkAttachments fs with
      | Sum.inl m => Sum.inl m
      | Sum.inr rest => Sum.inr (⟨f.originalname, f.buffer⟩ :: rest)
    else
      Sum.inl ("File type " ++ f.mimetype ++ " is not allowed for file \"" ++
        f.originalname ++ "\". Allowed types: PDF, images, Word, Excel, text files.")

/-- The request body as the handler receives it: `malformed` when one of the
`JSON.parse` calls of lines 32-39 throws. -/
inductive ReqBody where
  | malformed
  | parsed (p : RawPayload)

/-- multer enforces the 10 MiB per-file ceiling and the 10-file maximum
before the handler body runs (lines 8-13 and 16). -/
def multerRejects (files : List FilePart) : Bool :=
  10 < files.length || files.any (fun f => 10 * 1024 * 1024 < f.size)

/-- The route `POST /api/send-emails` end to end: multer limits, JSON parse,
schema validation, attachment allow-list, `createTransport` + `verify`, then
the SSE dispatch loop, the `complete` unit and `res.end()`.  Returns the
response and the trace of transport operations. -/
def handler (emailOk : String → Bool) (env : Env) (body : ReqBody)
    (files : List FilePart) : HandlerResult × List TransportOp :=
  if multerRejects files then
    (HandlerResult.syncJson 500 "File upload limit" [], [])
  else
    match body with
    | ReqBody.malformed =>
      (HandlerResult.syncJson 400 "Invalid JSON data in request" [], [])
    | ReqBody.parsed p =>
      match validateEmailRequest emailOk p with
      | Except.error es =>
        (HandlerResult.syncJson 400 "Invalid request data" es, [])
      | Except.ok validatedData =>
        match checkAttachments files with
        | Sum.inl msg => (HandlerResult.syncJson 400 msg [], [])
        | Sum.inr atts =>
          if env.verifyOk then
            let out := runDispatch env validatedData atts
            (HandlerResult.stream
               (out.units ++ [StreamUnit.complete (mkResponse out)]) true,
             TransportOp.create :: TransportOp.verify :: out.ops)
          else
            (HandlerResult.syncJson 401
               "SMTP authentication failed. Please check your credentials." [],
             [TransportOp.create, TransportOp.verify])

/-! ### Observations used by the statements -/

/-- The recipients of the `sending` units of a stream, in emission order. -/
def sendingEmailsOf (units : List StreamUnit) : List String :=
  units.filterMap fun u =>
    match u with
    | StreamUnit.status st =>
      if st.status = EmailState.sending then some st.email else none
    | _ => none

/-- The terminal (`sent` or `failed`) status units of a stream, in order. -/
def terminalsOf (units : List StreamUnit) : List EmailStatus :=
  units.filterMap fun u =>
    match u with
    | StreamUnit.status st =>
      if st.status = EmailState.sent ∨ st.status = EmailState.failed
      then some st else none
    | _ => none

/-- The `from` addresses of the messages handed to `sendMail`, in call order. -/
def fromsOf (ops : List TransportOp) : List String :=
  ops.filterMap fun op =>
    match op with
    | TransportOp.sendMail _ _ msg => some msg.fromAddr
    | _ => none

/-- A character list shaped like a match of the email regular expression
`[a-zA-Z0-9._%+-]+@[a-zA-Z0-9.-]+\.[a-zA-Z]{2,}`: a non-empty local part, an
`@`, a non-empty domain part, a dot and at least two letters. -/
def IsEmailShape (l : List Char) : Prop :=
  ∃ a d t, l = a ++ '@' :: (d ++ '.' :: t)
    ∧ a ≠ [] ∧ (∀ c ∈ a, isLocalChar c = true)
    ∧ d ≠ [] ∧ (∀ c ∈ d, isDomainChar c = true)
    ∧ 2 ≤ t.length ∧ (∀ c ∈ t, c.isAlpha = true)

/-- The constraints of the validator, read off the specification: which
constraint each issue label stands for, stated directly on the raw payload
(independently of the traversal `issuesOf` performs). -/
def Violates (emailOk : String → Bool) (p : RawPayload) : VIssue → Prop
  | VIssue.smtpConfigRequired => p.smtpConfig = none
  | VIssue.usernameRequired =>
    ∃ c, p.smtpConfig = some c ∧ (c.username = none ∨ c.username = some "")
  | VIssue.passwordRequired =>
    ∃ c, p.smtpConfig = some c ∧ (c.password = none ∨ c.password = some "")
  | VIssue.fromEmailInvalid =>
    ∃ c fe, p.smtpConfig = some c ∧ c.fromEmail = some fe ∧ emailOk fe = false
  | VIssue.recipientsRequired => p.recipients = none
  | VIssue.recipientInvalid i =>
    ∃ rs r, p.recipients = some rs ∧ rs.get? i = some r ∧ emailOk r = false
  | VIssue.recipientsTooFew => p.recipients = some []
  | VIssue.subjectRequired => p.subject = none ∨ p.subject = some ""
  | VIssue.htmlBodyRequired => p.htmlBody = none ∨ p.htmlBody = some ""
  | VIssue.ccInvalid i =>
    ∃ cs r, p.cc = some cs ∧ cs.get? i = some r ∧ emailOk r = false
  | VIssue.bccInvalid i =>
    ∃ bs r, p.bcc = some bs ∧ bs.get? i = some r ∧ emailOk r = false

/-- A request rejected before dispatch: malformed JSON, a schema validation
failure, a multer limit violation, or an attachment with a disallowed
declared content type. -/
def ValidationRejected (emailOk : String → Bool) (body : ReqBody)
    (files : List FilePart) : Prop :=
  body = ReqBody.malformed
  ∨ (∃ p es, body = ReqBody.parsed p ∧
       validateEmailRequest emailOk p = Except.error es)
  ∨ multerRejects files = true
  ∨ (∃ f ∈ files, f.mimetype ∉ allowedFileTypes)

/-- The part of claim C2 under test, as stated: every `failed` result of a
dispatch carries a non-empty reason. -/
def ClaimC2NonemptyReason : Prop :=
  ∀ (env : Env) (req : SendEmailRequest) (atts : List MailAttachment)
    (st : EmailStatus), st ∈ (runDispatch env req atts).results →
    st.status = EmailState.failed → st.error ≠ some ""

/-- The release part of claim C7, as stated: whenever a batch finishes (the
stream was produced and closed), the session has been released, i.e. a close
operation appears in the transport trace. -/
def ClaimC7Released : Prop :=
  ∀ (emailOk : String → Bool) (env : Env) (body : ReqBody)
    (files : List FilePart) (units : List StreamUnit),
    (handler emailOk env body files).1 = HandlerResult.stream units true →
    TransportOp.close ∈ (handler emailOk env body files).2

/-! ### Concrete instances for witnesses and counterexamples -/

/-- Stand-in for the zod email test in concrete runs (the abstract parameter
`emailOk` of the validator): accepts any string containing an `@`. -/
def demoEmailOk (s : String) : Bool :=
  s.data.any (fun c => c = '@')

/-- A well-formed concrete payload with two recipients. -/
def cPayload : RawPayload :=
  { smtpConfig := some ⟨some "user", some "secret", none, none, none⟩
    recipients := some ["a@x.com", "b@x.com"]
    subject := some "Hi"
    htmlBody := some "<p>Hello</p>"
    textBody := none
    cc := none
    bcc := none }

/-- The validated form of `cPayload`. -/
def cReq : SendEmailRequest := buildRequest cPayload

/-- Environment in which credentials verify, the first `sendMail` call is
rejected with an `Error` whose message is empty, and every other call is
fulfilled. -/
def cEnv : Env :=
  ⟨true, fun k => if k = 0 then SendOutcome.errMsg "" else SendOutcome.ok⟩

/-- Environment in which credentials verify and every `sendMail` call is
fulfilled. -/
def cEnvOk : Env := ⟨true, fun _ => SendOutcome.ok⟩

/-- Environment in which credential verification fails. -/
def cEnvBad : Env := ⟨false, fun _ => SendOutcome.ok⟩

/-- A payload violating two constraints at once: no recipients and an empty
subject. -/
def cPayloadTwoBad : RawPayload :=
  { cPayload with recipients := some [], subject := some "" }

/-- The smtp configuration of a caller who supplies a `fromEmail` of their
own choosing. -/
def cfgAttacker : SmtpRaw :=
  ⟨some "user", some "secret", none, none, some "attacker@evil.com"⟩

/-- `cPayload`, except that the caller supplies `fromEmail`. -/
def pAttacker : RawPayload := { cPayload with smtpConfig := some cfgAttacker }

/-- Identical to `pAttacker` except for the `fromEmail` value, which here is
the policy address. -/
def pPolicy : RawPayload :=
  { pAttacker with
    smtpConfig := some { cfgAttacker with
      fromEmail := some "crmsupport@legacylifespaces.com" } }

/-- The stream units of the complete concrete run used by the C8 witness. -/
def c8Units : List StreamUnit :=
  (runDispatch cEnv cReq []).units ++
    [StreamUnit.complete (mkResponse (runDispatch cEnv cReq []))]

/-- The transport trace of that same run. -/
def c8Ops : List TransportOp :=
  TransportOp.create :: TransportOp.verify :: (runDispatch cEnv cReq []).ops

/-- A file whose declared content type is outside the allow-list. -/
def cBadFile : FilePart :=
  { originalname := "a.zip", mimetype := "application/zip", size := 3, buffer := 0 }

/-! ## Sanity checks of the two regex embeddings on concrete inputs -/

example : parseEmails "alice@x.com, bob@x.com\nalice@x.com bob@x.com;carol@x.com" =
    ["alice@x.com", "bob@x.com", "carol@x.com"] := by decide

example : parseEmails "no emails here" = [] := by decide

example : emailMatches "a@b.c.com x" = ["a@b.c.com"] := by decide

example : stripHtmlTags "<p>Hi <b>there</b></p>" = "Hi there" := by decide

example : stripHtmlTags "a<b" = "a<b" := by decide

example : stripHtmlTags "a<b<c>d" = "ad" := by decide

/-! ## Lemmas about the dispatch loop -/

theorem dispatchLoop_sending (env : Env) (req : SendEmailRequest)
    (atts : List MailAttachment) :
    ∀ (rs : List String) (k : Nat),
      sendingEmailsOf (dispatchLoop env req atts k rs).units = rs := by
  intro rs
  induction rs with
  | nil => intro k; rfl
  | cons r rs ih =>
    intro k
    cases h : env.send k
    all_goals
      simp [dispatchLoop, sendingEmailsOf, statusFor, h, List.filterMap_cons]
    all_goals exact ih (k + 1)

theorem dispatchLoop_terminals (env : Env) (req : SendEmailRequest)
    (atts : List MailAttachment) :
    ∀ (rs : List String) (k : Nat),
      terminalsOf (dispatchLoop env req atts k rs).units =
        (dispatchLoop env req atts k rs).results := by
  intro rs
  induction rs with
  | nil => intro k; rfl
  | cons r rs ih =>
    intro k
    cases h : env.send k
    all_goals
      simp [dispatchLoop, terminalsOf, statusFor, h, List.filterMap_cons]
    all_goals exact ih (k + 1)

theorem dispatchLoop_results_email (env : Env) (req : SendEmailRequest)
    (atts : List MailAttachment) :
    ∀ (rs : List String) (k : Nat),
      (dispatchLoop env req atts k rs).results.map (fun st => st.email) = rs := by
  intro rs
  induction rs with
  | nil => intro k; rfl
  | cons r rs ih =>
    intro k
    cases h : env.send k <;>
      simp [dispatchLoop, statusFor, h, ih]

theorem dispatchLoop_results_len (env : Env) (req : SendEmailRequest)
    (atts : List MailAttachment) :
    ∀ (rs : List String) (k : Nat),
      (dispatchLoop env req atts k rs).results.length = rs.length := by
  intro rs
  induction rs with
  | nil => intro k; rfl
  | cons r rs ih =>
    intro k
    cases h : env.send k <;> simp [dispatchLoop, statusFor, h, ih]

theorem dispatchLoop_totalSent (env : Env) (req : SendEmailRequest)
    (atts : List MailAttachment) :
    ∀ (rs : List String) (k : Nat),
      (dispatchLoop env req atts k rs).totalSent =
        ((dispatchLoop env req atts k rs).results.filter
          (fun st => st.status = EmailState.sent)).length := by
  intro rs
  induction rs with
  | nil => intro k; rfl
  | cons r rs ih =>
    intro k
    cases h : env.send k
    all_goals simp [dispatchLoop, statusFor, h, List.filter_cons, ih]
    all_goals omega

theorem dispatchLoop_totalFailed (env : Env) (req : SendEmailRequest)
    (atts : List MailAttachment) :
    ∀ (rs : List String) (k : Nat),
      (dispatchLoop env req atts k rs).totalFailed =
        ((dispatchLoop env req atts k rs).results.filter
          (fun st => st.status = EmailState.failed)).length := by
  intro rs
  induction rs with
  | nil => intro k; rfl
  | cons r rs ih =>
    intro k
    cases h : env.send k
    all_goals simp [dispatchLoop, statusFor, h, List.filter_cons, ih]
    all_goals omega

theorem dispatchLoop_total (env : Env) (req : SendEmailRequest)
    (atts : List MailAttachment) :
    ∀ (rs : List String) (k : Nat),
      (dispatchLoop env req atts k rs).totalSent +
        (dispatchLoop env req atts k rs).totalFailed = rs.length := by
  intro rs
  induction rs with
  | nil => intro k; rfl
  | cons r rs ih =>
    intro k
    cases h : env.send k <;>
      (simp [dispatchLoop, statusFor, h]; have := ih (k + 1); omega)

theorem dispatchLoop_results_get (env : Env) (req : SendEmailRequest)
    (atts : List MailAttachment) :
    ∀ (rs : List String) (k p : Nat),
      (dispatchLoop env req atts k rs).results.get? p =
        (rs.get? p).map (fun r => statusFor r (env.send (k + p))) := by
  intro rs
  induction rs with
  | nil => intro k p; rfl
  | cons r rs ih =>
    intro k p
    cases p with
    | zero => simp [dispatchLoop]
    | succ p =>
      have := ih (k + 1) p
      simp only [dispatchLoop, List.get?] at this ⊢
      rw [this, Nat.add_assoc, Nat.add_comm 1 p]

theorem dispatchLoop_ops_env_indep (env env' : Env) (req : SendEmailRequest)
    (atts : List MailAttachment) :
    ∀ (rs : List String) (k : Nat),
      (dispatchLoop env req atts k rs).ops =
        (dispatchLoop env' req atts k rs).ops := by
  intro rs
  induction rs with
  | nil => intro k; rfl
  | cons r rs ih =>
    intro k
    simp [dispatchLoop, ih]

theorem dispatchLoop_ops_mem (env : Env) (req : SendEmailRequest)
    (atts : List MailAttachment) :
    ∀ (rs : List String) (k : Nat) (op : TransportOp),
      op ∈ (dispatchLoop env req atts k rs).ops →
      ∃ i r, rs.get? i = some r ∧
        op = TransportOp.sendMail (k + i) r (mkMessage req atts r) := by
  intro rs
  induction rs with
  | nil => intro k op h; simp [dispatchLoop] at h
  | cons r rs ih =>
    intro k op h
    simp only [dispatchLoop, List.mem_cons] at h
    rcases h with h | h
    · exact ⟨0, r, rfl, by simpa using h⟩
    · obtain ⟨i, r', hget, heq⟩ := ih (k + 1) op h
      exact ⟨i + 1, r', by simpa using hget, by rw [heq]; ring_nf⟩

theorem dispatchLoop_units_status (env : Env) (req : SendEmailRequest)
    (atts : List MailAttachment) :
    ∀ (rs : List String) (k : Nat) (u : StreamUnit),
      u ∈ (dispatchLoop env req atts k rs).units →
      ∃ st, u = StreamUnit.status st := by
  intro rs
  induction rs with
  | nil => intro k u h; simp [dispatchLoop] at h
  | cons r rs ih =>
    intro k u h
    simp only [dispatchLoop, List.mem_cons] at h
    rcases h with h | h | h
    · exact ⟨_, h⟩
    · exact ⟨_, h⟩
    · exact ih (k + 1) u h

/-! ## C1 — the dispatch loop emits N `sending` and N terminal events, in
recipient order, and the summary counts match -/

/-- C1: for every validated request, the dispatch loop emits one `sending`
event per recipient and one terminal (`sent` or `failed`) event per
recipient, both in the order of the validated recipient list, and the final
summary counts the `sent` and `failed` terminal events, so that
`totalSent + totalFailed` is the recipient count. -/
theorem dispatch_counts_and_order (env : Env) (req : SendEmailRequest)
    (atts : List MailAttachment) :
    sendingEmailsOf (runDispatch env req atts).units = req.recipients
  ∧ (terminalsOf (runDispatch env req atts).units).map (fun st => st.email) =
      req.recipients
  ∧ (mkResponse (runDispatch env req atts)).totalSent =
      ((terminalsOf (runDispatch env req atts).units).filter
        (fun st => st.status = EmailState.sent)).length
  ∧ (mkResponse (runDispatch env req atts)).totalFailed =
      ((terminalsOf (runDispatch env req atts).units).filter
        (fun st => st.status = EmailState.failed)).length
  ∧ (mkResponse (runDispatch env req atts)).totalSent +
      (mkResponse (runDispatch env req atts)).totalFailed =
      req.recipients.length := by
  simp only [runDispatch]
  refine ⟨dispatchLoop_sending env req atts req.recipients 0, ?_, ?_, ?_, ?_⟩
  · rw [dispatchLoop_terminals]
    exact dispatchLoop_results_email env req atts req.recipients 0
  · rw [dispatchLoop_terminals]
    exact dispatchLoop_totalSent env req atts req.recipients 0
  · rw [dispatchLoop_terminals]
    exact dispatchLoop_totalFailed env req atts req.recipients 0
  · exact dispatchLoop_total env req atts req.recipients 0

/-! ## C2 — per-recipient failure isolation -/

/-- C2 (amended): a delivery failure for one recipient does not abort the
batch and does not change any other recipient's delivery attempt or final
status; the failing recipient's terminal status is `failed` and carries the
rejecting error's message (or "Unknown error" for a non-`Error` rejection) —
which is non-empty exactly when that message is. -/
theorem failure_isolated (env env' : Env) (req : SendEmailRequest)
    (atts : List MailAttachment) (i : Nat)
    (hagree : ∀ j, j ≠ i → env'.send j = env.send j) :
    (runDispatch env req atts).ops = (runDispatch env' req atts).ops
  ∧ (runDispatch env req atts).results.length = req.recipients.length
  ∧ (∀ j, j ≠ i →
      (runDispatch env req atts).results.get? j =
        (runDispatch env' req atts).results.get? j)
  ∧ (∀ r m, req.recipients.get? i = some r →
      env.send i = SendOutcome.errMsg m →
      (runDispatch env req atts).results.get? i =
        some ⟨r, EmailState.failed, some m⟩) := by
  simp only [runDispatch]
  refine ⟨dispatchLoop_ops_env_indep env env' req atts req.recipients 0,
    dispatchLoop_results_len env req atts req.recipients 0, ?_, ?_⟩
  · intro j hj
    rw [dispatchLoop_results_get, dispatchLoop_results_get]
    simp only [Nat.zero_add]
    rw [hagree j hj]
  · intro r m hr hsend
    rw [dispatchLoop_results_get]
    simp only [Nat.zero_add]
    rw [hr, hsend]
    rfl

/-- C2 witness: in the concrete two-recipient batch where the first send is
rejected and the second succeeds, the first result is `failed` with the
rejection message and nothing else changes. -/
theorem failure_isolated_witness :
    (runDispatch cEnv cReq []).results.get? 0 =
      some ⟨"a@x.com", EmailState.failed, some ""⟩ :=
  (failure_isolated cEnv cEnvOk cReq [] 0
      (fun j hj => (if_neg hj).symm)).2.2.2 "a@x.com" "" (by decide) rfl

/-- C2 counterexample: the claim additionally asserts a *non-empty* failure
reason, but the route copies `error.message` verbatim, so an `Error` with an
empty message yields a `failed` status whose reason is the empty string —
exhibited on a validated two-recipient batch. -/
theorem failed_reason_can_be_empty :
    validateEmailRequest demoEmailOk cPayload = Except.ok cReq ∧
    ¬ ClaimC2NonemptyReason := by
  refine ⟨rfl, fun h => ?_⟩
  exact h cEnv cReq [] ⟨"a@x.com", EmailState.failed, some ""⟩
    (by decide) rfl rfl

/-! ## Lemmas about the attachment check and the handler branches -/

theorem checkAttachments_inr (files : List FilePart)
    (h : ∀ f ∈ files, f.mimetype ∈ allowedFileTypes) :
    ∃ atts, checkAttachments files = Sum.inr atts := by
  induction files with
  | nil => exact ⟨[], rfl⟩
  | cons f fs ih =>
    obtain ⟨atts, hatts⟩ := ih (fun g hg => h g (List.mem_cons_of_mem f hg))
    refine ⟨⟨f.originalname, f.buffer⟩ :: atts, ?_⟩
    simp [checkAttachments, h f (List.mem_cons_self f fs), hatts]

theorem checkAttachments_inl (files : List FilePart)
    (h : ∃ f ∈ files, f.mimetype ∉ allowedFileTypes) :
    ∃ m, checkAttachments files = Sum.inl m := by
  induction files with
  | nil => simp at h
  | cons f fs ih =>
    by_cases hf : f.mimetype ∈ allowedFileTypes
    · obtain ⟨g, hg, hgm⟩ := h
      rcases List.mem_cons.mp hg with hgf | hgf
      · exact absurd (hgf ▸ hf) hgm
      · obtain ⟨m, hm⟩ := ih ⟨g, hgf, hgm⟩
        exact ⟨m, by simp [checkAttachments, hf, hm]⟩
    · exact ⟨"File type " ++ f.mimetype ++ " is not allowed for file \"" ++
        f.originalname ++ "\". Allowed types: PDF, images, Word, Excel, text files.",
        by simp [checkAttachments, hf]⟩

/-! ## C5 — an authentication failure aborts before any recipient -/

/-- C5: when the request parses and validates and the attachments pass, but
credential verification against the mail service fails, the route responds
synchronously with 401; no stream is opened, no unit (in particular no
`sending` unit) is emitted, and the transport trace shows only the creation
and the failed verification — no `sendMail`. -/
theorem auth_failure_aborts (emailOk : String → Bool) (env : Env)
    (p : RawPayload) (files : List FilePart) (req : SendEmailRequest)
    (hvalid : validateEmailRequest emailOk p = Except.ok req)
    (hmul : multerRejects files = false)
    (hfiles : ∀ f ∈ files, f.mimetype ∈ allowedFileTypes)
    (hverify : env.verifyOk = false) :
    handler emailOk env (ReqBody.parsed p) files =
      (HandlerResult.syncJson 401
        "SMTP authentication failed. Please check your credentials." [],
       [TransportOp.create, TransportOp.verify]) := by
  obtain ⟨atts, hatts⟩ := checkAttachments_inr files hfiles
  simp [handler, hmul, hvalid, hatts, hverify]

/-- C5 witness: the concrete well-formed payload with failing credentials. -/
theorem auth_failure_aborts_witness :
    handler demoEmailOk cEnvBad (ReqBody.parsed cPayload) [] =
      (HandlerResult.syncJson 401
        "SMTP authentication failed. Please check your credentials." [],
       [TransportOp.create, TransportOp.verify]) :=
  auth_failure_aborts demoEmailOk cEnvBad cPayload [] cReq rfl rfl
    (fun f hf => absurd hf (List.not_mem_nil f)) rfl

/-! ## C6 — validation failures are atomic and happen before any network
activity -/

/-- C6: a request rejected by parsing, schema validation, the multer limits,
or the attachment content-type allow-list gets a synchronous JSON error; the
transport trace is empty (no session is ever created, hence no network
activity and no `sending` status), and no stream is opened. -/
theorem validation_failure_atomic (emailOk : String → Bool) (env : Env)
    (body : ReqBody) (files : List FilePart)
    (hrej : ValidationRejected emailOk body files) :
    ∃ code msg errs,
      handler emailOk env body files =
        (HandlerResult.syncJson code msg errs, []) := by
  by_cases hm : multerRejects files = true
  · exact ⟨500, "File upload limit", [], by simp [handler, hm]⟩
  · rw [Bool.not_eq_true] at hm
    rcases hrej with h | ⟨p, es, hb, hv⟩ | h | ⟨f, hf, hmt⟩
    · subst h
      exact ⟨400, "Invalid JSON data in request", [], by simp [handler, hm]⟩
    · subst hb
      exact ⟨400, "Invalid request data", es, by simp [handler, hm, hv]⟩
    · exact absurd h (by simp [hm])
    · cases body with
      | malformed =>
        exact ⟨400, "Invalid JSON data in request", [], by simp [handler, hm]⟩
      | parsed p =>
        cases hv : validateEmailRequest emailOk p with
        | error es =>
          exact ⟨400, "Invalid request data", es, by simp [handler, hm, hv]⟩
        | ok req =>
          obtain ⟨msg, hmsg⟩ := checkAttachments_inl files ⟨f, hf, hmt⟩
          exact ⟨400, msg, [], by simp [handler, hm, hv, hmsg]⟩

/-- C6 witness: a request whose only flaw is one attachment of the
disallowed kind `application/zip` is rejected with an empty transport
trace. -/
theorem validation_failure_atomic_witness :
    ∃ code msg errs,
      handler demoEmailOk cEnvOk (ReqBody.parsed cPayload) [cBadFile] =
        (HandlerResult.syncJson code msg errs, []) :=
  validation_failure_atomic demoEmailOk cEnvOk (ReqBody.parsed cPayload)
    [cBadFile]
    (Or.inr (Or.inr (Or.inr ⟨cBadFile, by decide, by decide⟩)))

/-! ## C7 — session lifecycle -/

theorem dispatchLoop_no_close (env : Env) (req : SendEmailRequest)
    (atts : List MailAttachment) (rs : List String) (k : Nat) :
    TransportOp.close ∉ (dispatchLoop env req atts k rs).ops := by
  intro h
  obtain ⟨i, r, _, heq⟩ := dispatchLoop_ops_mem env req atts rs k _ h
  exact TransportOp.noConfusion heq

/-- C7 (amended): per batch the route creates exactly one transporter, and
only when the request has passed every pre-dispatch check; the trace is then
one `create`, one `verify` (credentials are checked once, not per message),
and `sendMail` calls only — and on no path does the route ever release
(close) the transport. -/
theorem session_lifecycle (emailOk : String → Bool) (env : Env)
    (body : ReqBody) (files : List FilePart) :
    ((handler emailOk env body files).2 = []
      ∨ ∃ sends, (handler emailOk env body files).2 =
            TransportOp.create :: TransportOp.verify :: sends
          ∧ ∀ op ∈ sends, ∃ k r m, op = TransportOp.sendMail k r m)
  ∧ TransportOp.close ∉ (handler emailOk env body files).2 := by
  by_cases hm : multerRejects files = true
  · simp [handler, hm]
  · rw [Bool.not_eq_true] at hm
    cases body with
    | malformed => simp [handler, hm]
    | parsed p =>
      cases hv : validateEmailRequest emailOk p with
      | error es => simp [handler, hm, hv]
      | ok req =>
        cases ha : checkAttachments files with
        | inl m => simp [handler, hm, hv, ha]
        | inr atts =>
          by_cases hver : env.verifyOk = true
          · constructor
            · right
              refine ⟨(runDispatch env req atts).ops,
                by simp [handler, hm, hv, ha, hver], ?_⟩
              intro op hop
              obtain ⟨i, r, _, heq⟩ :=
                dispatchLoop_ops_mem env req atts req.recipients 0 op hop
              exact ⟨0 + i, r, mkMessage req atts r, heq⟩
            · simp only [handler, hm, hv, ha, hver]
              simp [runDispatch, dispatchLoop_no_close env req atts req.recipients 0]
          · rw [Bool.not_eq_true] at hver
            constructor
            · right
              exact ⟨[], by simp [handler, hm, hv, ha, hver], by simp⟩
            · simp [handler, hm, hv, ha, hver]

/-- C7 witness: on the concrete completed batch the transport is never
closed. -/
theorem session_lifecycle_witness :
    TransportOp.close ∉ (handler demoEmailOk cEnvOk (ReqBody.parsed cPayload) []).2 :=
  (session_lifecycle demoEmailOk cEnvOk (ReqBody.parsed cPayload) []).2

/-- C7 counterexample: the claim says the session is released when the batch
finishes, but on a batch that runs to completion (the stream is produced and
closed) the transport trace contains no close operation at all. -/
theorem session_never_released : ¬ ClaimC7Released := by
  intro h
  have hmem := h demoEmailOk cEnvOk (ReqBody.parsed cPayload) []
    ((runDispatch cEnvOk cReq []).units ++
      [StreamUnit.complete (mkResponse (runDispatch cEnvOk cReq []))]) rfl
  exact absurd hmem (by decide)

/-! ## C8 — every opened stream ends with exactly one terminal unit -/

/-- C8: whenever the route opens the SSE stream, the produced unit sequence
consists of per-recipient status units followed by exactly one terminal unit
(the `complete` summary — in particular never both a `complete` and an
`error` unit, and never neither), after which the producer ends the
stream. -/
theorem stream_one_terminal (emailOk : String → Bool) (env : Env)
    (body : ReqBody) (files : List FilePart) (units : List StreamUnit)
    (ended : Bool) (ops : List TransportOp)
    (h : handler emailOk env body files = (HandlerResult.stream units ended, ops)) :
    ended = true
  ∧ ∃ pre resp, units = pre ++ [StreamUnit.complete resp]
      ∧ ∀ u ∈ pre, ∃ st, u = StreamUnit.status st := by
  by_cases hm : multerRejects files = true
  · simp [handler, hm] at h
  · rw [Bool.not_eq_true] at hm
    cases body with
    | malformed => simp [handler, hm] at h
    | parsed p =>
      cases hv : validateEmailRequest emailOk p with
      | error es => simp [handler, hm, hv] at h
      | ok req =>
        cases ha : checkAttachments files with
        | inl m => simp [handler, hm, hv, ha] at h
        | inr atts =>
          by_cases hver : env.verifyOk = true
          · simp only [handler, hm, hv, ha, hver, Bool.false_eq_true,
              if_false, if_true, Prod.mk.injEq, HandlerResult.stream.injEq] at h
            obtain ⟨⟨hunits, hended⟩, -⟩ := h
            refine ⟨hended.symm, (runDispatch env req atts).units,
              mkResponse (runDispatch env req atts), hunits.symm, ?_⟩
            intro u hu
            exact dispatchLoop_units_status env req atts req.recipients 0 u hu
          · rw [Bool.not_eq_true] at hver
            simp [handler, hm, hv, ha, hver] at h

/-- C8 witness: the concrete completed batch produces its status units, then
the single `complete` unit, then the stream is ended. -/
theorem stream_one_terminal_witness :
    true = true
  ∧ ∃ pre resp, c8Units = pre ++ [StreamUnit.complete resp]
      ∧ ∀ u ∈ pre, ∃ st, u = StreamUnit.status st :=
  stream_one_terminal demoEmailOk cEnv (ReqBody.parsed cPayload) []
    c8Units true c8Ops rfl

/-! ## C3 — the from address is caller-controlled, contrary to policy -/

/-- C3 (code bug): two requests identical except for the caller-supplied
`smtpConfig.fromEmail` field produce different `from` addresses on every
dispatched message: the zod default fixes `fromEmail` only when the field is
absent, and the route copies `validatedData.smtpConfig.fromEmail` into each
message, so a caller-supplied value overrides the policy address. -/
theorem from_address_caller_controlled :
    fromsOf (handler demoEmailOk cEnvOk (ReqBody.parsed pAttacker) []).2 =
      ["attacker@evil.com", "attacker@evil.com"]
  ∧ fromsOf (handler demoEmailOk cEnvOk (ReqBody.parsed pPolicy) []).2 =
      ["crmsupport@legacylifespaces.com", "crmsupport@legacylifespaces.com"]
  ∧ ("attacker@evil.com" : String) ≠ "crmsupport@legacylifespaces.com" :=
  ⟨by decide, by decide, by decide⟩

/-! ## C10 — plain-text body fallback -/

/-- C10: every message handed to `sendMail` carries as its plain-text body
the caller's `textBody` when that is present and non-empty, and otherwise
`htmlBody` with every substring matching `<[^>]*>` removed. -/
theorem text_body_fallback (env : Env) (req : SendEmailRequest)
    (atts : List MailAttachment) (k : Nat) (r : String) (msg : MailMessage)
    (hop : TransportOp.sendMail k r msg ∈ (runDispatch env req atts).ops) :
    ((req.textBody = none ∨ req.textBody = some "") →
      msg.text = stripHtmlTags req.htmlBody)
  ∧ (∀ tb, req.textBody = some tb → tb ≠ "" → msg.text = tb) := by
  obtain ⟨i, r', hget, heq⟩ :=
    dispatchLoop_ops_mem env req atts req.recipients 0 _ hop
  injection heq with hk hr hm
  constructor
  · intro htb
    rw [hm]
    rcases htb with h | h <;> simp [mkMessage, textOf, h]
  · intro tb htb hne
    rw [hm]
    simp [mkMessage, textOf, htb, hne]

/-- C10 witness: with no `textBody`, the concrete message's text is the
stripped `htmlBody`. -/
theorem text_body_fallback_witness :
    (mkMessage cReq [] "a@x.com").text = stripHtmlTags cReq.htmlBody :=
  (text_body_fallback cEnvOk cReq [] 0 "a@x.com" (mkMessage cReq [] "a@x.com")
      (by decide)).1 (Or.inl rfl)

/-! ## C9 — the validator enumerates every violated constraint -/

theorem mem_reqIssue (v c : VIssue) (x : Option String) :
    c ∈ reqIssue v x ↔ c = v ∧ (x = none ∨ x = some "") := by
  cases x with
  | none => simp [reqIssue]
  | some s => by_cases hs : s = "" <;> simp [reqIssue, hs]

theorem mem_emailFieldIssue (v c : VIssue) (emailOk : String → Bool)
    (x : Option String) :
    c ∈ emailFieldIssue v emailOk x ↔
      c = v ∧ ∃ s, x = some s ∧ emailOk s = false := by
  cases x with
  | none => simp [emailFieldIssue]
  | some s => by_cases hs : emailOk s = true <;> simp [emailFieldIssue, hs]

theorem mem_idxFailures (emailOk : String → Bool) (tag : Nat → VIssue)
    (c : VIssue) : ∀ (rs : List String) (k : Nat),
    c ∈ idxFailures emailOk tag k rs ↔
      ∃ j r, rs.get? j = some r ∧ emailOk r = false ∧ c = tag (k + j) := by
  intro rs
  induction rs with
  | nil => intro k; simp [idxFailures]
  | cons r rs ih =>
    intro k
    by_cases hr : emailOk r = true
    · have hred : idxFailures emailOk tag k (r :: rs) =
          idxFailures emailOk tag (k + 1) rs := by
        simp [idxFailures, hr]
      rw [hred, ih (k + 1)]
      constructor
      · rintro ⟨j, r', hg, hro, hc⟩
        exact ⟨j + 1, r', hg, hro, by rw [hc]; exact congrArg tag (by omega)⟩
      · rintro ⟨j, r', hg, hro, hc⟩
        cases j with
        | zero =>
          have hrr : r = r' := by simpa using hg
          subst hrr
          exact absurd hr (by simp [hro])
        | succ j =>
          exact ⟨j, r', hg, hro, by rw [hc]; exact congrArg tag (by omega)⟩
    · rw [Bool.not_eq_true] at hr
      have hred : idxFailures emailOk tag k (r :: rs) =
          tag k :: idxFailures emailOk tag (k + 1) rs := by
        simp [idxFailures, hr]
      rw [hred]
      constructor
      · intro hmem
        rcases List.mem_cons.mp hmem with hc | hmem2
        · exact ⟨0, r, rfl, hr, by rw [hc]; exact congrArg tag (by omega)⟩
        · obtain ⟨j, r', hg, hro, hc⟩ := (ih (k + 1)).mp hmem2
          exact ⟨j + 1, r', hg, hro, by rw [hc]; exact congrArg tag (by omega)⟩
      · rintro ⟨j, r', hg, hro, hc⟩
        cases j with
        | zero =>
          apply List.mem_cons.mpr
          left
          rw [hc]
          exact congrArg tag (by omega)
        | succ j =>
          apply List.mem_cons.mpr
          right
          exact (ih (k + 1)).mpr
            ⟨j, r', hg, hro, by rw [hc]; exact congrArg tag (by omega)⟩

theorem exists_idx_shift (rs : List String) (f : String → Bool) (i : Nat) :
    (∃ j r, rs[j]? = some r ∧ f r = false ∧ i = j) ↔
      (∃ r, rs[i]? = some r ∧ f r = false) := by
  constructor
  · rintro ⟨j, r, hg, hf, rfl⟩
    exact ⟨r, hg, hf⟩
  · rintro ⟨r, hg, hf⟩
    exact ⟨i, r, hg, hf, rfl⟩

theorem mem_smtpIssues (emailOk : String → Bool) (cfg : SmtpRaw) (c : VIssue) :
    c ∈ smtpIssues emailOk cfg ↔
      (c = VIssue.usernameRequired ∧
        (cfg.username = none ∨ cfg.username = some ""))
    ∨ (c = VIssue.passwordRequired ∧
        (cfg.password = none ∨ cfg.password = some ""))
    ∨ (c = VIssue.fromEmailInvalid ∧
        ∃ fe, cfg.fromEmail = some fe ∧ emailOk fe = false) := by
  simp [smtpIssues, List.mem_append, mem_reqIssue, mem_emailFieldIssue]

theorem mem_ite_singleton (P : Prop) [Decidable P] (v c : VIssue) :
    (c ∈ if P then [v] else []) ↔ P ∧ c = v := by
  split <;> simp [*]

theorem mem_issuesOf (emailOk : String → Bool) (p : RawPayload) (c : VIssue) :
    c ∈ issuesOf emailOk p ↔ Violates emailOk p c := by
  rcases p with ⟨sc, rcp, sub, hb, tb, cc, bcc⟩
  cases c <;> cases sc <;> cases rcp <;> cases cc <;> cases bcc <;>
    simp [issuesOf, Violates, mem_smtpIssues, mem_reqIssue, mem_emailFieldIssue,
      mem_idxFailures, mem_ite_singleton, Nat.lt_one_iff, List.length_eq_zero,
      exists_idx_shift]

/-- C9: when validation fails, the structured failure response enumerates
every violated constraint of the schema — a constraint is violated if and
only if its issue appears in the reported list, never just the first
violation found. -/
theorem validator_reports_all_violations (emailOk : String → Bool)
    (p : RawPayload) (es : List VIssue)
    (h : validateEmailRequest emailOk p = Except.error es) :
    ∀ c, Violates emailOk p c ↔ c ∈ es := by
  have hes : es = issuesOf emailOk p := by
    unfold validateEmailRequest at h
    cases hi : issuesOf emailOk p with
    | nil =>
      rw [hi] at h
      simp at h
    | cons a l =>
      rw [hi] at h
      simp only [] at h
      injection h with h'
      rw [← h']
  intro c
  rw [hes]
  exact (mem_issuesOf emailOk p c).symm

/-- C9 witness: a payload with an empty recipient list and an empty subject
violates two constraints, and the reported issue list contains both. -/
theorem validator_reports_all_violations_witness :
    (Violates demoEmailOk cPayloadTwoBad VIssue.recipientsTooFew ↔
      VIssue.recipientsTooFew ∈
        [VIssue.recipientsTooFew, VIssue.subjectRequired])
  ∧ (Violates demoEmailOk cPayloadTwoBad VIssue.subjectRequired ↔
      VIssue.subjectRequired ∈
        [VIssue.recipientsTooFew, VIssue.subjectRequired]) :=
  ⟨validator_reports_all_violations demoEmailOk cPayloadTwoBad
      [VIssue.recipientsTooFew, VIssue.subjectRequired] rfl
      VIssue.recipientsTooFew,
   validator_reports_all_violations demoEmailOk cPayloadTwoBad
      [VIssue.recipientsTooFew, VIssue.subjectRequired] rfl
      VIssue.subjectRequired⟩

/-! ## C4 — the recipient normalizer -/

theorem takeWhile_length_take {α : Type} (p : α → Bool) :
    ∀ l : List α, List.take (List.takeWhile p l).length l = List.takeWhile p l := by
  intro l
  induction l with
  | nil => rfl
  | cons a l ih =>
    cases hpa : p a with
    | true => simp [List.takeWhile_cons, hpa, ih]
    | false => simp [List.takeWhile_cons, hpa]

theorem mem_take_takeWhile_pred {α : Type} (p : α → Bool) :
    ∀ (l : List α) (k : Nat), k ≤ (l.takeWhile p).length →
      ∀ x, x ∈ l.take k → p x = true := by
  intro l
  induction l with
  | nil => intro k hk x hx; simp at hx
  | cons a lt ih =>
    intro k hk x hx
    cases k with
    | zero => simp at hx
    | succ k =>
      cases hpa : p a with
      | false =>
        rw [List.takeWhile_cons, hpa] at hk
        simp at hk
      | true =>
        rw [List.takeWhile_cons, hpa] at hk
        simp only [List.take_succ_cons] at hx
        rcases List.mem_cons.mp hx with rfl | hx'
        · exact hpa
        · exact ih k (by simpa using hk) x hx'

theorem findSplit_spec (rest : List Char) :
    ∀ (k d1 m : Nat), findSplit rest k = some (d1, m) →
      1 ≤ d1 ∧ d1 ≤ k ∧ rest.get? d1 = some '.'
      ∧ m = lettersLen (rest.drop (d1 + 1)) ∧ 2 ≤ m := by
  intro k
  induction k with
  | zero => intro d1 m h; simp [findSplit] at h
  | succ d ih =>
    intro d1 m h
    rw [findSplit] at h
    split at h
    · rename_i hcond
      injection h with h'
      injection h' with h1 h2
      subst h1
      subst h2
      exact ⟨Nat.succ_le_succ (Nat.zero_le d), Nat.le_refl _, hcond.1, rfl, hcond.2⟩
    · obtain ⟨hd1, hdk, hdot, hm, hm2⟩ := ih d1 m h
      exact ⟨hd1, Nat.le_trans hdk (Nat.le_succ d), hdot, hm, hm2⟩

theorem get?_some_lt {α : Type} {l : List α} {n : Nat} {a : α}
    (h : l.get? n = some a) : n < l.length :=
  List.get?_eq_some.mp h |>.1

theorem drop_cons_of_get? {α : Type} {l : List α} {n : Nat} {a : α}
    (h : l.get? n = some a) : l.drop n = a :: l.drop (n + 1) := by
  have hlt : n < l.length := get?_some_lt h
  have := List.drop_eq_getElem_cons hlt
  rwa [show l[n] = a from by
    have := List.get?_eq_some.mp h
    obtain ⟨h1, h2⟩ := this
    simpa [List.get_eq_getElem] using h2] at this

theorem matchLenAt_shape (cs : List Char) (n : Nat)
    (h : matchLenAt cs = some n) : IsEmailShape (cs.take n) := by
  simp only [matchLenAt] at h
  split at h
  · exact absurd h (by simp)
  · rename_i h0
    split at h
    · rename_i c hg
      split at h
      · rename_i hc
        subst hc
        split at h
        · rename_i dm d1 m hs
          have hn : n = (cs.takeWhile isLocalChar).length + 1 + d1 + 1 + m := by
            injection h with h'
            exact h'.symm
          obtain ⟨hd1, hdk, hdot, hm, hm2⟩ := findSplit_spec _ _ d1 m hs
          -- names for the three parts
          refine ⟨cs.takeWhile isLocalChar,
            (cs.drop ((cs.takeWhile isLocalChar).length + 1)).take d1,
            ((cs.drop ((cs.takeWhile isLocalChar).length + 1)).drop
              (d1 + 1)).takeWhile Char.isAlpha, ?_, ?_, ?_, ?_, ?_, ?_, ?_⟩
          · -- the decomposition of the matched prefix
            rw [hn,
              show (cs.takeWhile isLocalChar).length + 1 + d1 + 1 + m =
                (cs.takeWhile isLocalChar).length + (1 + (d1 + (1 + m)))
                from by omega,
              List.take_add, takeWhile_length_take,
              drop_cons_of_get? hg,
              show 1 + (d1 + (1 + m)) = (d1 + (1 + m)) + 1 from by omega,
              List.take_succ_cons,
              List.take_add,
              drop_cons_of_get? hdot,
              show 1 + m = m + 1 from by omega,
              List.take_succ_cons,
              hm, lettersLen, takeWhile_length_take]
          · intro he
            rw [he] at h0
            exact h0 rfl
          · intro x hx
            exact List.mem_takeWhile_imp hx
          · intro he
            have hlen : ((cs.drop ((cs.takeWhile isLocalChar).length + 1)).take
                d1).length = d1 := by
              rw [List.length_take]
              exact Nat.min_eq_left (Nat.le_of_lt (get?_some_lt hdot))
            rw [he] at hlen
            simp at hlen
            omega
          · intro x hx
            exact mem_take_takeWhile_pred isDomainChar _ d1 hdk x hx
          · rw [show (((cs.drop ((cs.takeWhile isLocalChar).length + 1)).drop
                (d1 + 1)).takeWhile Char.isAlpha).length =
                lettersLen ((cs.drop ((cs.takeWhile isLocalChar).length + 1)).drop
                  (d1 + 1)) from rfl, ← hm]
            exact hm2
          · intro x hx
            exact List.mem_takeWhile_imp hx
        · exact absurd h (by simp)
      · exact absurd h (by simp)
    · exact absurd h (by simp)

theorem scanAuxF_shape : ∀ (fuel : Nat) (cs : List Char) (x : List Char),
    x ∈ scanAuxF fuel cs → IsEmailShape x := by
  intro fuel
  induction fuel with
  | zero => intro cs x h; simp [scanAuxF] at h
  | succ fuel ih =>
    intro cs x h
    cases cs with
    | nil => simp [scanAuxF] at h
    | cons c cs' =>
      rw [scanAuxF] at h
      cases hm : matchLenAt (c :: cs') with
      | some n =>
        rw [hm] at h
        rcases List.mem_cons.mp h with hx | hx
        · rw [hx]
          exact matchLenAt_shape _ n hm
        · exact ih _ x hx
      | none =>
        rw [hm] at h
        exact ih cs' x h

theorem emailMatches_shape (s : String) (e : String)
    (he : e ∈ emailMatches s) : IsEmailShape e.data := by
  obtain ⟨x, hx, hxe⟩ := List.mem_map.mp he
  rw [← hxe]
  exact scanAuxF_shape _ _ x hx

/-! Lemmas about first-occurrence deduplication. -/

theorem mem_dedupFirstAux : ∀ (l seen : List String) (a : String),
    a ∈ dedupFirstAux seen l ↔ a ∈ l ∧ a ∉ seen := by
  intro l
  induction l with
  | nil => intro seen a; simp [dedupFirstAux]
  | cons x xs ih =>
    intro seen a
    by_cases hx : x ∈ seen
    · rw [dedupFirstAux, if_pos hx, ih]
      constructor
      · rintro ⟨ha, hs⟩
        exact ⟨List.mem_cons_of_mem x ha, hs⟩
      · rintro ⟨ha, hs⟩
        rcases List.mem_cons.mp ha with rfl | ha'
        · exact absurd hx hs
        · exact ⟨ha', hs⟩
    · rw [dedupFirstAux, if_neg hx]
      constructor
      · intro h
        rcases List.mem_cons.mp h with rfl | h'
        · exact ⟨List.mem_cons_self a xs, hx⟩
        · obtain ⟨ha, hs⟩ := (ih (x :: seen) a).mp h'
          exact ⟨List.mem_cons_of_mem x ha,
            fun hsa => hs (List.mem_cons_of_mem x hsa)⟩
      · rintro ⟨ha, hs⟩
        by_cases hax : a = x
        · rw [hax]
          exact List.mem_cons_self x _
        · apply List.mem_cons_of_mem
          apply (ih (x :: seen) a).mpr
          refine ⟨?_, fun hmem => ?_⟩
          · rcases List.mem_cons.mp ha with h' | h'
            · exact absurd h' hax
            · exact h'
          · rcases List.mem_cons.mp hmem with h'' | h''
            · exact hax h''
            · exact hs h''

theorem nodup_dedupFirstAux : ∀ (l seen : List String),
    (dedupFirstAux seen l).Nodup := by
  intro l
  induction l with
  | nil => intro seen; exact List.nodup_nil
  | cons x xs ih =>
    intro seen
    by_cases hx : x ∈ seen
    · rw [dedupFirstAux, if_pos hx]
      exact ih seen
    · rw [dedupFirstAux, if_neg hx]
      refine List.nodup_cons.mpr ⟨fun hmem => ?_, ih (x :: seen)⟩
      exact ((mem_dedupFirstAux xs (x :: seen) x).mp hmem).2
        (List.mem_cons_self x seen)

theorem pairwise_dedupFirstAux : ∀ (l seen : List String),
    (dedupFirstAux seen l).Pairwise
      (fun a b => l.indexOf a < l.indexOf b) := by
  intro l
  induction l with
  | nil => intro seen; simp [dedupFirstAux]
  | cons x xs ih =>
    intro seen
    by_cases hx : x ∈ seen
    · rw [dedupFirstAux, if_pos hx]
      refine (ih seen).imp_of_mem ?_
      intro a b ha hb hab
      have has := ((mem_dedupFirstAux xs seen a).mp ha).2
      have hbs := ((mem_dedupFirstAux xs seen b).mp hb).2
      have hax : x ≠ a := fun he => has (he ▸ hx)
      have hbx : x ≠ b := fun he => hbs (he ▸ hx)
      rw [List.indexOf_cons_ne xs hax, List.indexOf_cons_ne xs hbx]
      omega
    · rw [dedupFirstAux, if_neg hx]
      refine List.pairwise_cons.mpr ⟨?_, ?_⟩
      · intro b hb
        have hbs := ((mem_dedupFirstAux xs (x :: seen) b).mp hb).2
        have hbx : x ≠ b := fun he => hbs (he ▸ List.mem_cons_self x seen)
        rw [List.indexOf_cons_self, List.indexOf_cons_ne xs hbx]
        omega
      · refine (ih (x :: seen)).imp_of_mem ?_
        intro a b ha hb hab
        have has := ((mem_dedupFirstAux xs (x :: seen) a).mp ha).2
        have hbs := ((mem_dedupFirstAux xs (x :: seen) b).mp hb).2
        have hax : x ≠ a := fun he => has (he ▸ List.mem_cons_self x seen)
        have hbx : x ≠ b := fun he => hbs (he ▸ List.mem_cons_self x seen)
        rw [List.indexOf_cons_ne xs hax, List.indexOf_cons_ne xs hbx]
        omega

/-- C4: the recipient normalizer returns exactly the email-regex matches of
the freeform text, deduplicated — no duplicates remain, an address is in the
output iff the scan found it, the output is ordered by first occurrence in
the match sequence, every output element is email-shaped — and on the
mixed-separator example it returns the three distinct addresses in order of
first appearance. -/
theorem normalizer_contract :
    (∀ t : String,
        (parseEmails t).Nodup
      ∧ (∀ e, e ∈ parseEmails t ↔ e ∈ emailMatches t)
      ∧ (parseEmails t).Pairwise
          (fun a b => (emailMatches t).indexOf a < (emailMatches t).indexOf b)
      ∧ (∀ e, e ∈ parseEmails t → IsEmailShape e.data))
  ∧ parseEmails "alice@x.com, bob@x.com\nalice@x.com bob@x.com;carol@x.com" =
      ["alice@x.com", "bob@x.com", "carol@x.com"] := by
  constructor
  · intro t
    refine ⟨nodup_dedupFirstAux (emailMatches t) [],
      fun e => ?_, pairwise_dedupFirstAux (emailMatches t) [],
      fun e he => ?_⟩
    · have := mem_dedupFirstAux (emailMatches t) [] e
      simpa [parseEmails] using this
    · exact emailMatches_shape t e
        (((mem_dedupFirstAux (emailMatches t) [] e).mp he).1)
  · decide

/-- C4 witness: the first output of the example is email-shaped. -/
theorem normalizer_contract_witness : IsEmailShape ("alice@x.com" : String).data :=
  (normalizer_contract.1 "alice@x.com").2.2.2 "alice@x.com" (by decide)

